import Mathlib

/-!
Shallow embedding of the tool-orchestration loop in `app/core/graph.py`
(together with the tool constructors in `app/core/tools/`), and proofs of
the specified properties of that loop: the iteration-ceiling guard, the
tool-execution batch semantics (argument normalization, per-request
isolation, result ordering, output truncation), the routing relation of
the compiled graph, and the registry-construction policy.

External effects (the language model, the SQL backend, the FAISS vector
stores) are abstracted as parameters: the model is a function from the
bound-tools flag and the chat history to a response, and each tool is a
function from a query string to either a result string or the description
of a raised exception.
-/

namespace Graph

/-- A Python value as it can appear in a tool call's argument payload:
a string, an integer, or a dict (association list in insertion order,
matching Python 3.7+ dict iteration order). -/
inductive PyVal where
  | vstr : String → PyVal
  | vint : Int → PyVal
  | vdict : List (String × PyVal) → PyVal

/-- Python truthiness for the payload values: a string is truthy iff
non-empty, an int iff non-zero, a dict iff non-empty. -/
def truthy : PyVal → Bool
  | .vstr s => !(s == "")
  | .vint n => !(n == 0)
  | .vdict l => !l.isEmpty

/-- `dict.get(key)`: the first binding of `key` in insertion order,
`none` when the key is absent. -/
def dictGet : List (String × PyVal) → String → Option PyVal
  | [], _ => none
  | (k, v) :: rest, key => if k == key then some v else dictGet rest key

/-- Python `x or y` on optional values: `None` and falsy values select the
right operand, a truthy left operand is returned unchanged. -/
def pyOr (a b : Option PyVal) : Option PyVal :=
  match a with
  | some v => if truthy v then some v else b
  | none => b

/-- Falsiness of a possibly-`None` value (`if not query_string:`). -/
def optFalsy : Option PyVal → Bool
  | none => true
  | some v => !truthy v

/-- The `for key, value in tool_args.items(): if isinstance(value, str)`
loop of `tool_executor_node`: the first string-typed value in iteration
order, taken even when it is the empty string. -/
def firstStrValue : List (String × PyVal) → Option String
  | [] => none
  | (_, .vstr s) :: _ => some s
  | _ :: rest => firstStrValue rest

/-- Python `repr` of a payload value, as used inside `str` of a dict. -/
def pyRepr : PyVal → String
  | .vstr s => "\x27" ++ s ++ "\x27"
  | .vint n => toString n
  | .vdict l => "\x7b" ++ String.intercalate ", " (reprEntries l) ++ "\x7d"
where
  /-- `repr` of each `key: value` entry of a dict. -/
  reprEntries : List (String × PyVal) → List String
    | [] => []
    | (k, v) :: rest => ("\x27" ++ k ++ "\x27: " ++ pyRepr v) :: reprEntries rest

/-- Python `str` of a payload value: a string is returned as is, any other
value by its `repr`. -/
def pyStr : PyVal → String
  | .vstr s => s
  | v => pyRepr v

/-- The argument-normalization block of `tool_executor_node`
(graph.py lines 266-284): a dict payload is probed with
`tool_args.get(\x27query\x27) or tool_args.get(\x27arg1\x27) or
tool_args.get(\x27input\x27) or tool_args.get(\x27question\x27)`; if that
chain is falsy, the first string-typed value in iteration order is taken;
if the result is still falsy, the whole dict is stringified. A string
payload is used verbatim, and any other payload is stringified. The chain
can select a truthy non-string value, which is returned unchanged (the
node later fails on it when slicing for the log line). -/
def normalizeArgs : PyVal → PyVal
  | .vdict l =>
    let q1 := pyOr (dictGet l "query") (pyOr (dictGet l "arg1")
      (pyOr (dictGet l "input") (dictGet l "question")))
    let q2 := if optFalsy q1 then
        match firstStrValue l with
        | some s => some (PyVal.vstr s)
        | none => q1
      else q1
    match q2 with
    | some v => if truthy v then v else PyVal.vstr (pyStr (PyVal.vdict l))
    | none => PyVal.vstr (pyStr (PyVal.vdict l))
  | .vstr s => .vstr s
  | v => .vstr (pyStr v)

/-- Normalization as the spec's words describe it, for comparison with
`normalizeArgs`: "use the first present string value among the priority
keys; failing that, the first string-typed value of the mapping in
iteration order; failing that, the stringification of the whole
payload". -/
def firstPresentStrAmong (l : List (String × PyVal)) : List String → Option String
  | [] => none
  | k :: ks =>
    match dictGet l k with
    | some (.vstr s) => some s
    | _ => firstPresentStrAmong l ks

/-- The spec-worded normalization policy (claim C3 as stated). -/
def normalizeArgsSpec : PyVal → PyVal
  | .vdict l =>
    match firstPresentStrAmong l ["query", "arg1", "input", "question"] with
    | some s => .vstr s
    | none =>
      match firstStrValue l with
      | some s => .vstr s
      | none => .vstr (pyStr (PyVal.vdict l))
  | .vstr s => .vstr s
  | v => .vstr (pyStr v)

/-- The probe of the priority keys as the source actually behaves: the
first truthy value (of any type) bound to one of the keys, in key order. -/
def priorityProbe (l : List (String × PyVal)) : List String → Option PyVal
  | [] => none
  | k :: ks =>
    match dictGet l k with
    | some v => if truthy v then some v else priorityProbe l ks
    | none => priorityProbe l ks

/-- The amended normalization policy: first truthy value among the
priority keys, used verbatim; failing that, the first string-typed value
of the mapping in iteration order provided it is non-empty; failing that,
the stringification of the whole payload. -/
def normalizeArgsAmended : PyVal → PyVal
  | .vdict l =>
    match priorityProbe l ["query", "arg1", "input", "question"] with
    | some v => v
    | none =>
      match firstStrValue l with
      | some s =>
        if s == "" then .vstr (pyStr (PyVal.vdict l)) else .vstr s
      | none => .vstr (pyStr (PyVal.vdict l))
  | .vstr s => .vstr s
  | v => .vstr (pyStr v)

/-- Python `s[:n]` on a string: the first `n` characters. -/
def pySlice (s : String) (n : Nat) : String := String.mk (s.data.take n)

/-- The output-bounding block of `tool_executor_node` (graph.py lines
292-294): a result text longer than 1000 characters is cut to its first
1000 characters and the marker `... (truncated)` is appended; shorter
text is returned unmodified. -/
def truncateResult (s : String) : String :=
  if s.length > 1000 then pySlice s 1000 ++ "... (truncated)" else s

/-- A tool's invocation function: a query string in, either a result text
or the description of a raised exception out. -/
def ToolFn : Type := String → Except String String

/-- A registry entry: tool name paired with its invocation function. -/
def ToolEntry : Type := String × ToolFn

/-- `{tool.name: tool for tool in tools}` followed by `.get(name)`:
Python dict comprehension keeps the LAST binding of a duplicated key, so
lookup is on the reversed list; for distinct names this is plain
first-match lookup. -/
def toolMapGet (tools : List ToolEntry) (name : String) : Option ToolFn :=
  lookupLast tools name
where
  /-- Last-binding-wins lookup, matching dict comprehension semantics. -/
  lookupLast : List ToolEntry → String → Option ToolFn
    | [], _ => none
    | (k, f) :: rest, key =>
      match lookupLast rest key with
      | some g => some g
      | none => if k == key then some f else none

/-- `list(tool_map.keys())` rendered by `str`, as interpolated into the
unknown-tool error message. Dict comprehension order keeps first
occurrence position of each key; for distinct names this is the tool list
order. -/
def keysRepr (tools : List ToolEntry) : String :=
  "[" ++ String.intercalate ", " ((dedupKeys (tools.map Prod.fst) []).map
    (fun k => "\x27" ++ k ++ "\x27")) ++ "]"
where
  /-- Keys in first-occurrence order, duplicates dropped. -/
  dedupKeys : List String → List String → List String
    | [], _ => []
    | k :: rest, seen =>
      if seen.contains k then dedupKeys rest seen
      else k :: dedupKeys rest (k :: seen)

/-- One pending tool call as received from the model: the `name`, `args`
and `id` entries, each possibly absent. -/
structure ToolCall where
  name : Option String
  args : PyVal
  id : Option String

/-- A `ToolMessage` appended to `tool_responses` by the executor. -/
structure ToolMsg where
  tool_call_id : String
  content : String
  name : String
deriving DecidableEq

/-- The body of the `for tool_call in state["tool_calls"]` loop of
`tool_executor_node` for one call: `ok none` when the call is skipped for
lack of a name, `ok (some msg)` when one `ToolMessage` is appended, and
`error` when the node itself raises (the uncaught `TypeError` from slicing
a non-string normalized argument in the log line, which occurs before the
protected `invoke`). -/
def execRequest (tools : List ToolEntry) (tc : ToolCall) :
    Except String (Option ToolMsg) :=
  let tool_call_id := tc.id.getD "unknown"
  match tc.name with
  | none => .ok none
  | some tool_name =>
    if tool_name == "" then .ok none
    else
      match toolMapGet tools tool_name with
      | some tool_to_call =>
        match normalizeArgs tc.args with
        | .vstr query_string =>
          match tool_to_call query_string with
          | .ok response =>
            .ok (some ⟨tool_call_id,
              "Tool \x27" ++ tool_name ++ "\x27 returned: " ++
                truncateResult response,
              tool_name⟩)
          | .error e =>
            .ok (some ⟨tool_call_id,
              "Error: Error executing tool " ++ tool_name ++ ": " ++ e,
              tool_name⟩)
        | _ => .error "TypeError: unsupported operand for slicing"
      | none =>
        .ok (some ⟨tool_call_id,
          "Tool \x27" ++ tool_name ++ "\x27 not found. Available tools: " ++
            keysRepr tools,
          tool_name⟩)

/-- `tool_executor_node` over the pending calls: sequential execution,
accumulating the new tool responses in request order; a raised
`TypeError` aborts the node. -/
def tool_executor_node (tools : List ToolEntry) :
    List ToolCall → Except String (List ToolMsg)
  | [] => .ok []
  | tc :: rest =>
    match execRequest tools tc with
    | .error e => .error e
    | .ok none => tool_executor_node tools rest
    | .ok (some m) =>
      match tool_executor_node tools rest with
      | .error e => .error e
      | .ok ms => .ok (m :: ms)

/-- A conversation message: `HumanMessage`, `AIMessage` (content plus
tool calls), or `ToolMessage`. -/
inductive Msg where
  | human : String → Msg
  | ai : String → List ToolCall → Msg
  | tool : ToolMsg → Msg

/-- The `AgentState` TypedDict of graph.py. `messages` and
`tool_responses` are annotated with the concatenation reducer; the other
channels are overwritten by node returns. -/
structure AgentState where
  input : String
  chat_history : List Msg
  messages : List Msg
  tool_calls : List ToolCall
  tool_responses : List ToolMsg
  iteration_count : Nat

/-- A model response: content text and the `tool_calls` attribute. -/
structure ModelResponse where
  content : String
  tool_calls : List ToolCall

/-- The abstract language model behind `agent_chain.invoke`: its first
argument is whether tool schemas were bound (`llm.bind_tools(tools)`
versus plain `llm`), its second the chat history passed to the prompt. -/
def Decide : Type := Bool → List Msg → ModelResponse

/-- The partial state update returned by `agent_node`: appended messages,
the new `tool_calls` channel value, the `iteration_count` channel value
when present, and — as instrumentation of the abstract model —
`invoked = some b` when the model was invoked with bound-tools flag `b`,
`none` when the iteration guard skipped the model call. -/
structure AgentResult where
  messages : List Msg
  tool_calls : List ToolCall
  iteration_count : Option Nat
  invoked : Option Bool

/-- `MAX_ITERATIONS` in `agent_node`. -/
def MAX_ITERATIONS : Nat := 5

/-- The fixed apology content synthesized when the ceiling is reached. -/
def apologyText : String :=
  "I apologize, but I\x27m having difficulty processing your request. Please try rephrasing your question or breaking it into smaller parts."

/-- The chat history `agent_node` hands to the model: the `messages`
channel followed by the accumulated `tool_responses`. -/
def histOf (s : AgentState) : List Msg :=
  s.messages ++ s.tool_responses.map Msg.tool

/-- `agent_node` (graph.py lines 137-233): if the iteration counter has
reached `MAX_ITERATIONS`, return the fixed apology without invoking the
model; otherwise invoke the model — with tools bound exactly when
`tool_responses` is empty — and either return its tool calls with the
counter incremented, or return its text as the final answer with the
counter channel untouched. -/
def agent_node (decide : Decide) (s : AgentState) : AgentResult :=
  if s.iteration_count ≥ MAX_ITERATIONS then
    { messages := [Msg.ai apologyText []], tool_calls := [],
      iteration_count := none, invoked := none }
  else
    let bound := s.tool_responses.isEmpty
    let resp := decide bound (histOf s)
    if resp.tool_calls.isEmpty then
      { messages := [Msg.ai resp.content resp.tool_calls], tool_calls := [],
        iteration_count := none, invoked := some bound }
    else
      { messages := [], tool_calls := resp.tool_calls,
        iteration_count := some (s.iteration_count + 1),
        invoked := some bound }

/-- Merging an `agent_node` return into the state: `messages`
concatenates (reducer), `tool_calls` is overwritten, `iteration_count`
is overwritten only when returned, `tool_responses` is untouched. -/
def applyAgentUpdate (s : AgentState) (r : AgentResult) : AgentState :=
  { s with
    messages := s.messages ++ r.messages,
    tool_calls := r.tool_calls,
    iteration_count := r.iteration_count.getD s.iteration_count }

/-- Merging a `tool_executor_node` return: the new responses concatenate
onto `tool_responses` (reducer) and `tool_calls` is cleared. -/
def applyToolsUpdate (s : AgentState) (msgs : List ToolMsg) : AgentState :=
  { s with
    tool_responses := s.tool_responses ++ msgs,
    tool_calls := [] }

/-- `should_continue` (graph.py lines 330-340): `"continue"` exactly when
the `tool_calls` channel is truthy (non-empty). -/
def should_continue (s : AgentState) : String :=
  if !s.tool_calls.isEmpty then "continue" else "end"

/-- The nodes of the compiled graph: `agent`, `tools` and `END`. -/
inductive GNode where
  | agent
  | tools
  | terminal
deriving DecidableEq

/-- The conditional edge out of `agent` as wired by `create_graph`:
`"continue" ↦ tools`, `"end" ↦ END`. -/
def routeAfterAgent (s : AgentState) : GNode :=
  if should_continue s == "continue" then GNode.tools else GNode.terminal

/-- The unconditional edge out of `tools` (`workflow.add_edge("tools",
"agent")`). -/
def routeAfterTools : GNode := GNode.agent

/-- Running the compiled graph from the `agent` node with the given fuel:
each round runs `agent_node`, records the bound-tools flag of any model
invocation onto the trace, merges the update, and follows
`should_continue`; `"continue"` runs `tool_executor_node` and loops,
`"end"` returns the final state with the invocation trace. An uncaught
executor exception or exhausted fuel yields `none`. -/
def runFrom (decide : Decide) (tools : List ToolEntry) :
    Nat → AgentState → List Bool → Option (AgentState × List Bool)
  | 0, _, _ => none
  | fuel + 1, s, trace =>
    let r := agent_node decide s
    let trace := trace ++ (match r.invoked with
      | some b => [b]
      | none => [])
    let s := applyAgentUpdate s r
    if routeAfterAgent s = GNode.tools then
      match tool_executor_node tools s.tool_calls with
      | .error _ => none
      | .ok msgs => runFrom decide tools fuel (applyToolsUpdate s msgs) trace
    else some (s, trace)

/-- The tool list a source contributed: its tools on success, `[]` after
its `except` branch. -/
def entriesOf : Except String (List ToolEntry) → List ToolEntry
  | .ok l => l
  | .error _ => []

/-- The fatal startup message (graph.py line 50). -/
def noToolsMsg : String :=
  "No tools available! Please check database connection and vector stores."

/-- The module-level tool-list construction of graph.py (lines 24-50):
each source's failure is caught and contributes `[]`, the survivors are
concatenated, and an empty combined list raises `RuntimeError`. -/
def buildToolList (sqlSrc ragSrc : Except String (List ToolEntry)) :
    Except String (List ToolEntry) :=
  let sql_tools := entriesOf sqlSrc
  let rag_tools := entriesOf ragSrc
  let tools := sql_tools ++ rag_tools
  if tools.isEmpty then .error noToolsMsg else .ok tools

/-- `create_feedback_rag_tool` (feedback_tool.py lines 10-87): raises
`FileNotFoundError` when the store path is missing, propagates any
`FAISS.load_local` failure, and otherwise reaches the line
`retriever = vectorstore.as_retriever()` whose name `vectorstore` is
defined nowhere in the function or module scope, raising `NameError` on
every remaining path before the tool object is constructed. -/
def create_feedback_rag_tool (pathExists : Bool)
    (faissLoad : Except String Unit) : Except String ToolEntry :=
  if !pathExists then
    .error "Feedback vector store not found. Please run the build script."
  else
    match faissLoad with
    | .error e => .error e
    | .ok _ => .error "NameError: name \x27vectorstore\x27 is not defined"

/-- The RAG block of graph.py (lines 38-44): both RAG tools are built in
one `try`, so a failure of either leaves `rag_tools = []`. -/
def build_rag_tools (pathExists : Bool) (faissLoad : Except String Unit)
    (productTool : Except String ToolEntry) : List ToolEntry :=
  match create_feedback_rag_tool pathExists faissLoad with
  | .error _ => []
  | .ok ft =>
    match productTool with
    | .error _ => []
    | .ok pt => [ft, pt]

/-- A concrete echo tool used to instantiate generic statements. -/
def echoTool : ToolEntry := ("echo", fun q => Except.ok q)

/-- A tool call carries a usable name: `some n` with `n` truthy. -/
def namedCall (tc : ToolCall) : Prop := ∃ n, tc.name = some n ∧ n ≠ ""

/-- A tool call whose payload normalizes to a string (the node raises an
uncaught `TypeError` on any other normalized value when logging). -/
def strNormalizable (tc : ToolCall) : Prop :=
  ∃ q, normalizeArgs tc.args = PyVal.vstr q

/-- Concrete tools for instantiating the generic theorems: one that
succeeds, one that always raises, one that succeeds. -/
def toolA : ToolEntry := ("alpha", fun q => Except.ok ("result for " ++ q))

/-- A tool that always raises. -/
def toolB : ToolEntry := ("beta", fun _ => Except.error "backend unreachable")

/-- A second succeeding tool. -/
def toolC : ToolEntry := ("gamma", fun q => Except.ok (q ++ " ok"))

/-- A three-tool registry. -/
def wReg : List ToolEntry := [toolA, toolB, toolC]

/-- Requests A, B, C of the ordering scenario (B's tool raises). -/
def tcA : ToolCall := ⟨some "alpha", PyVal.vstr "qa", some "call_1"⟩

/-- Request B, whose tool raises. -/
def tcB : ToolCall := ⟨some "beta", PyVal.vstr "qb", some "call_2"⟩

/-- Request C. -/
def tcC : ToolCall := ⟨some "gamma", PyVal.vstr "qc", some "call_3"⟩

/-- A request naming a tool absent from the registry. -/
def tcU : ToolCall := ⟨some "delta", PyVal.vstr "qu", some "call_4"⟩

/-- A model stub that always requests one tool call. -/
def stubDecide : Decide := fun _ _ => ⟨"thinking", [tcA]⟩

/-- A model stub that always answers with plain text. -/
def answerDecide : Decide := fun _ _ => ⟨"the answer", []⟩

/-- A fresh turn state: one user message, counter at zero. -/
def initState : AgentState := ⟨"hi", [], [Msg.human "hi"], [], [], 0⟩

end Graph

namespace Graph

/-- C5: for every successful tool invocation, a result text whose length
exceeds 1000 characters is truncated to exactly 1000 characters with the
truncation marker appended, and a result text of length at most 1000 is
returned unmodified. -/
theorem truncation_exact (s : String) :
    (s.length ≤ 1000 → truncateResult s = s) ∧
    (1000 < s.length →
      truncateResult s = pySlice s 1000 ++ "... (truncated)" ∧
      (pySlice s 1000).length = 1000) := by
  constructor
  · intro h
    rw [truncateResult, if_neg (by omega)]
  · intro h
    refine ⟨by rw [truncateResult, if_pos h], ?_⟩
    show (s.data.take 1000).length = 1000
    have hd : s.data.length = s.length := rfl
    rw [List.length_take]
    omega

/-- Witness for `truncation_exact` at a 1001-character string. -/
theorem truncation_exact_witness :
    1000 < (String.mk (List.replicate 1001 'a')).length ∧
    (truncateResult (String.mk (List.replicate 1001 'a')) =
        pySlice (String.mk (List.replicate 1001 'a')) 1000 ++
          "... (truncated)" ∧
      (pySlice (String.mk (List.replicate 1001 'a')) 1000).length = 1000) :=
  have hlen : 1000 < (String.mk (List.replicate 1001 'a')).length := by
    show 1000 < (List.replicate 1001 'a').length
    rw [List.length_replicate]
    omega
  ⟨hlen, (truncation_exact _).2 hlen⟩

/-- C8: a failing tool source contributes zero entries, the combined list
from the surviving sources is used when non-empty, and an empty combined
list makes construction fail with the fatal startup error. -/
theorem registry_graceful_degradation
    (s r : Except String (List ToolEntry)) :
    (∀ e, entriesOf (Except.error e) = []) ∧
    (entriesOf s ++ entriesOf r ≠ [] →
      buildToolList s r = .ok (entriesOf s ++ entriesOf r)) ∧
    (entriesOf s ++ entriesOf r = [] →
      buildToolList s r = .error noToolsMsg) := by
  refine ⟨fun _ => rfl, ?_, ?_⟩
  · intro h
    simp [buildToolList, List.isEmpty_eq_false.mpr h]
  · intro h
    simp [buildToolList, h]

/-- Witness for `registry_graceful_degradation`: a failed SQL source and
a surviving one-tool RAG source build a registry of exactly that tool. -/
theorem registry_graceful_degradation_witness :
    entriesOf (Except.error "db down") ++ entriesOf (Except.ok [echoTool]) ≠
      [] ∧
    buildToolList (Except.error "db down") (Except.ok [echoTool]) =
      .ok (entriesOf (Except.error "db down") ++
        entriesOf (Except.ok [echoTool])) :=
  ⟨by simp [entriesOf],
    (registry_graceful_degradation _ _).2.1 (by simp [entriesOf])⟩

/-- C10: `create_feedback_rag_tool` raises on every invocation (the
undefined name `vectorstore` is reached on every path that survives the
store-path check and the FAISS load), so `rag_tools` is always empty and
the startup tool list is exactly the SQL toolkit list, failing fatally
exactly when the SQL source also failed or was empty. -/
theorem feedback_tool_always_raises :
    (∀ p l, ∃ e, create_feedback_rag_tool p l = .error e) ∧
    (∀ p l pt, build_rag_tools p l pt = []) ∧
    (∀ p l pt e,
      buildToolList (.error e) (.ok (build_rag_tools p l pt)) =
        .error noToolsMsg) ∧
    (∀ p l pt ts, ts ≠ [] →
      buildToolList (.ok ts) (.ok (build_rag_tools p l pt)) = .ok ts) := by
  have hraises : ∀ p l, ∃ e, create_feedback_rag_tool p l = .error e := by
    intro p l
    cases p with
    | false => exact ⟨_, rfl⟩
    | true =>
      cases l with
      | error e => exact ⟨e, rfl⟩
      | ok u => exact ⟨_, rfl⟩
  have hrag : ∀ p l pt, build_rag_tools p l pt = [] := by
    intro p l pt
    obtain ⟨e, he⟩ := hraises p l
    rw [build_rag_tools, he]
  refine ⟨hraises, hrag, ?_, ?_⟩
  · intro p l pt e
    rw [hrag]
    rfl
  · intro p l pt ts hts
    rw [hrag]
    simp [buildToolList, entriesOf, hts]

/-- Witness for `feedback_tool_always_raises`: with the store present,
a successful FAISS load, a product tool that would have been fine, and a
non-empty SQL toolkit, the startup list is the SQL list alone. -/
theorem feedback_tool_always_raises_witness :
    ([echoTool] : List ToolEntry) ≠ [] ∧
    buildToolList (.ok [echoTool])
      (.ok (build_rag_tools true (.ok ()) (.ok echoTool))) =
      .ok [echoTool] :=
  ⟨by simp,
    feedback_tool_always_raises.2.2.2 true (.ok ()) (.ok echoTool) [echoTool]
      (by simp)⟩

/-- The truthiness filter that the pair of `if not query_string:` checks
effectively applies to the priority-key chain. -/
def filterTruthy : Option PyVal → Option PyVal
  | some v => if truthy v then some v else none
  | none => none

/-- The `or`-chain over the four priority keys, filtered for truthiness,
is the first-truthy-value probe. -/
theorem chain_filter_eq (l : List (String × PyVal)) :
    filterTruthy (pyOr (dictGet l "query") (pyOr (dictGet l "arg1")
      (pyOr (dictGet l "input") (dictGet l "question")))) =
    priorityProbe l ["query", "arg1", "input", "question"] := by
  cases h1 : dictGet l "query" <;> cases h2 : dictGet l "arg1" <;>
    cases h3 : dictGet l "input" <;> cases h4 : dictGet l "question" <;>
    simp [pyOr, priorityProbe, filterTruthy, h1, h2, h3, h4] <;>
    split_ifs <;> simp_all [filterTruthy]

/-- C3 counterexample: the payload `{"query": ""}` has `""` as the first
present string value among the priority keys, but the code normalizes it
to the stringified mapping, not to `""` (Python `or` discards falsy
values). -/
theorem normalize_empty_string_counterexample :
    normalizeArgs (PyVal.vdict [("query", PyVal.vstr "")]) ≠
      PyVal.vstr "" := by
  intro h
  rw [show normalizeArgs (PyVal.vdict [("query", PyVal.vstr "")]) =
      PyVal.vstr "\x7b\x27query\x27: \x27\x27\x7d" from rfl] at h
  injection h with h2
  exact absurd h2 (by decide)

/-- C3 (amended): argument normalization is a deterministic function of
the payload: a string payload is used verbatim; a mapping payload yields
the first truthy value among the priority keys (query, arg1, input,
question), used verbatim; failing that, the first string-typed value of
the mapping in iteration order provided it is non-empty; failing that,
the stringification of the whole payload. The three examples of the spec
hold as stated. -/
theorem normalization_amended :
    (∀ p, normalizeArgs p = normalizeArgsAmended p) ∧
    normalizeArgs (PyVal.vdict [("query", PyVal.vstr "x"),
      ("other", PyVal.vint 1)]) = PyVal.vstr "x" ∧
    normalizeArgs (PyVal.vstr "raw string") = PyVal.vstr "raw string" ∧
    normalizeArgs (PyVal.vdict [("other", PyVal.vint 1)]) =
      PyVal.vstr "\x7b\x27other\x27: 1\x7d" := by
  refine ⟨?_, rfl, rfl, rfl⟩
  intro p
  cases p with
  | vstr s => rfl
  | vint n => rfl
  | vdict l =>
    have hc := chain_filter_eq l
    simp only [normalizeArgs, normalizeArgsAmended]
    rw [← hc]
    cases hq : pyOr (dictGet l "query") (pyOr (dictGet l "arg1")
        (pyOr (dictGet l "input") (dictGet l "question"))) with
    | none =>
      simp only [filterTruthy, optFalsy]
      cases hf : firstStrValue l with
      | none => simp
      | some s =>
        by_cases hs : s == ""
        · simp_all [truthy]
        · simp_all [truthy]
    | some v =>
      by_cases ht : truthy v
      · simp [filterTruthy, optFalsy, ht]
      · simp only [filterTruthy, optFalsy, ht]
        cases hf : firstStrValue l with
        | none => simp [ht]
        | some s =>
          by_cases hs : s == ""
          · simp_all [truthy]
          · simp_all [truthy]

/-- C7: the iteration counter after merging an `agent_node` return is
incremented by exactly one when the outcome was a tool request (the
returned `tool_calls` are non-empty) and unchanged otherwise — both for a
final text answer and for the forced ceiling cutoff, which return an
empty `tool_calls` list. -/
theorem iteration_counter_update (decide : Decide) (s : AgentState) :
    ((agent_node decide s).tool_calls ≠ [] →
      (applyAgentUpdate s (agent_node decide s)).iteration_count =
        s.iteration_count + 1) ∧
    ((agent_node decide s).tool_calls = [] →
      (applyAgentUpdate s (agent_node decide s)).iteration_count =
        s.iteration_count) := by
  by_cases hg : s.iteration_count ≥ MAX_ITERATIONS
  · simp [agent_node, hg, applyAgentUpdate]
  · cases he : (decide s.tool_responses.isEmpty (histOf s)).tool_calls with
    | nil => simp [agent_node, hg, applyAgentUpdate, he]
    | cons a rest => simp [agent_node, hg, applyAgentUpdate, he]

/-- Witness for `iteration_counter_update`: a model that requests a tool
from the fresh state increments the counter from 0 to 1. -/
theorem iteration_counter_update_witness :
    (agent_node stubDecide initState).tool_calls ≠ [] ∧
    AgentState.iteration_count
        (applyAgentUpdate initState (agent_node stubDecide initState)) =
      initState.iteration_count + 1 :=
  have h : (agent_node stubDecide initState).tool_calls ≠ [] := by
    rw [show (agent_node stubDecide initState).tool_calls = [tcA] from rfl]
    simp
  ⟨h, (iteration_counter_update stubDecide initState).1 h⟩

/-- C6: after merging the decision step's output, the conditional edge
selects the tools node exactly when the output carries one or more tool
requests; an output carrying tool requests is never treated as a final
answer (the requests are forwarded verbatim with no answer message); and
the edge out of the tools node is unconditionally back to the agent
node. -/
theorem loop_routing (decide : Decide) (s : AgentState) :
    (routeAfterAgent (applyAgentUpdate s (agent_node decide s)) =
        GNode.tools ↔ (agent_node decide s).tool_calls ≠ []) ∧
    (s.iteration_count < MAX_ITERATIONS →
      (decide s.tool_responses.isEmpty (histOf s)).tool_calls ≠ [] →
      (agent_node decide s).tool_calls =
        (decide s.tool_responses.isEmpty (histOf s)).tool_calls ∧
      (agent_node decide s).messages = []) ∧
    routeAfterTools = GNode.agent := by
  refine ⟨?_, ?_, rfl⟩
  · cases h : (agent_node decide s).tool_calls with
    | nil =>
      simp [routeAfterAgent, should_continue, applyAgentUpdate, h]
    | cons a rest =>
      simp [routeAfterAgent, should_continue, applyAgentUpdate, h]
  · intro hlt hne
    have hni := List.isEmpty_eq_false.mpr hne
    constructor <;>
      simp [agent_node, show ¬s.iteration_count ≥ MAX_ITERATIONS from
        by omega, hni]

/-- Witness for `loop_routing`: from the fresh state, a tool-requesting
model routes to the tools node with its requests forwarded verbatim. -/
theorem loop_routing_witness :
    initState.iteration_count < MAX_ITERATIONS ∧
    ModelResponse.tool_calls
        (stubDecide initState.tool_responses.isEmpty (histOf initState)) ≠
      [] ∧
    ((agent_node stubDecide initState).tool_calls =
        ModelResponse.tool_calls
          (stubDecide initState.tool_responses.isEmpty
            (histOf initState)) ∧
      (agent_node stubDecide initState).messages = []) :=
  have h1 : initState.iteration_count < MAX_ITERATIONS := by decide
  have h2 : ModelResponse.tool_calls
      (stubDecide initState.tool_responses.isEmpty
        (histOf initState)) ≠ [] := by
    rw [show ModelResponse.tool_calls
      (stubDecide initState.tool_responses.isEmpty
        (histOf initState)) = [tcA] from rfl]
    simp
  ⟨h1, h2, (loop_routing stubDecide initState).2.1 h1 h2⟩

/-- A named request with a string-normalizable payload always yields one
tool response, tagged with the request's name and identifier. -/
theorem execRequest_ok (tools : List ToolEntry) (tc : ToolCall)
    (hn : namedCall tc) (ha : strNormalizable tc) :
    ∃ m, execRequest tools tc = .ok (some m) ∧
      tc.name = some m.name ∧ tc.id.getD "unknown" = m.tool_call_id := by
  obtain ⟨n, hn1, hn2⟩ := hn
  obtain ⟨q, hq⟩ := ha
  have hne : (n == "") = false := by simp [hn2]
  cases hm : toolMapGet tools n with
  | none =>
    exact ⟨⟨tc.id.getD "unknown",
      "Tool \x27" ++ n ++ "\x27 not found. Available tools: " ++
        keysRepr tools, n⟩,
      by simp [execRequest, hn1, hne, hm], by rw [hn1], rfl⟩
  | some f =>
    cases hf : f q with
    | ok r =>
      exact ⟨⟨tc.id.getD "unknown",
        "Tool \x27" ++ n ++ "\x27 returned: " ++ truncateResult r, n⟩,
        by simp [execRequest, hn1, hne, hm, hq, hf], by rw [hn1], rfl⟩
    | error e =>
      exact ⟨⟨tc.id.getD "unknown",
        "Error: Error executing tool " ++ n ++ ": " ++ e, n⟩,
        by simp [execRequest, hn1, hne, hm, hq, hf], by rw [hn1], rfl⟩

/-- The executor maps a batch of named, normalizable requests to a
same-length batch of responses, positionally: the i-th response is the
result of executing the i-th request. -/
theorem executor_pointwise (tools : List ToolEntry) (tcs : List ToolCall)
    (hname : ∀ tc ∈ tcs, namedCall tc)
    (hargs : ∀ tc ∈ tcs, strNormalizable tc) :
    ∃ msgs, tool_executor_node tools tcs = .ok msgs ∧
      msgs.length = tcs.length ∧
      ∀ i (hi : i < tcs.length) (hj : i < msgs.length),
        execRequest tools (tcs.get ⟨i, hi⟩) =
          .ok (some (msgs.get ⟨i, hj⟩)) := by
  induction tcs with
  | nil => exact ⟨[], rfl, rfl, fun i hi hj => absurd hi (by simp)⟩
  | cons tc rest ih =>
    obtain ⟨m, hm, _, _⟩ := execRequest_ok tools tc
      (hname tc (List.mem_cons_self _ _)) (hargs tc (List.mem_cons_self _ _))
    obtain ⟨msgs, hms, hlen, hpt⟩ := ih
      (fun t ht => hname t (List.mem_cons_of_mem _ ht))
      (fun t ht => hargs t (List.mem_cons_of_mem _ ht))
    refine ⟨m :: msgs, ?_, by simp [hlen], ?_⟩
    · rw [tool_executor_node, hm, hms]
    · intro i hi hj
      cases i with
      | zero => exact hm
      | succ k =>
        exact hpt k (by simpa using hi) (by simpa using hj)

/-- C2: within one batch, a request naming a tool absent from the
registry yields an error result naming the unknown tool and listing the
available tools; a request whose invocation raises yields an error
result carrying the exception's description; and no request's failure
prevents the sibling requests from producing their own results (every
request in the batch yields exactly one response). -/
theorem batch_isolation (tools : List ToolEntry) :
    (∀ tc n, tc.name = some n → n ≠ "" → toolMapGet tools n = none →
      execRequest tools tc = .ok (some ⟨tc.id.getD "unknown",
        "Tool \x27" ++ n ++ "\x27 not found. Available tools: " ++
          keysRepr tools, n⟩)) ∧
    (∀ tc n f q e, tc.name = some n → n ≠ "" →
      toolMapGet tools n = some f →
      normalizeArgs tc.args = PyVal.vstr q → f q = .error e →
      execRequest tools tc = .ok (some ⟨tc.id.getD "unknown",
        "Error: Error executing tool " ++ n ++ ": " ++ e, n⟩)) ∧
    (∀ tcs, (∀ tc ∈ tcs, namedCall tc) →
      (∀ tc ∈ tcs, strNormalizable tc) →
      ∃ msgs, tool_executor_node tools tcs = .ok msgs ∧
        msgs.length = tcs.length) := by
  refine ⟨?_, ?_, ?_⟩
  · intro tc n h1 h2 h3
    have hne : (n == "") = false := by simp [h2]
    simp [execRequest, h1, hne, h3]
  · intro tc n f q e h1 h2 h3 h4 h5
    have hne : (n == "") = false := by simp [h2]
    simp [execRequest, h1, hne, h3, h4, h5]
  · intro tcs hn ha
    obtain ⟨msgs, h1, h2, _⟩ := executor_pointwise tools tcs hn ha
    exact ⟨msgs, h1, h2⟩

/-- Witness for `batch_isolation`: in the batch [A, B, unknown] over the
three-tool registry, B's tool raises and the third request names an
unregistered tool, yet three responses are produced, with the unknown
tool named and the exception description carried. -/
theorem batch_isolation_witness :
    (∀ tc ∈ [tcA, tcB, tcU], namedCall tc) ∧
    (∀ tc ∈ [tcA, tcB, tcU], strNormalizable tc) ∧
    (∃ msgs, tool_executor_node wReg [tcA, tcB, tcU] = .ok msgs ∧
      msgs.length = [tcA, tcB, tcU].length) ∧
    execRequest wReg tcU = .ok (some ⟨"call_4",
      "Tool \x27delta\x27 not found. Available tools: " ++ keysRepr wReg,
      "delta"⟩) ∧
    execRequest wReg tcB = .ok (some ⟨"call_2",
      "Error: Error executing tool beta: backend unreachable", "beta"⟩) :=
  have hn : ∀ tc ∈ [tcA, tcB, tcU], namedCall tc := by
    intro tc htc
    simp only [List.mem_cons, List.not_mem_nil, or_false] at htc
    rcases htc with rfl | rfl | rfl
    · exact ⟨"alpha", rfl, by decide⟩
    · exact ⟨"beta", rfl, by decide⟩
    · exact ⟨"delta", rfl, by decide⟩
  have ha : ∀ tc ∈ [tcA, tcB, tcU], strNormalizable tc := by
    intro tc htc
    simp only [List.mem_cons, List.not_mem_nil, or_false] at htc
    rcases htc with rfl | rfl | rfl
    · exact ⟨"qa", rfl⟩
    · exact ⟨"qb", rfl⟩
    · exact ⟨"qu", rfl⟩
  ⟨hn, ha, (batch_isolation wReg).2.2 [tcA, tcB, tcU] hn ha,
    (batch_isolation wReg).1 tcU "delta" rfl (by decide) rfl,
    (batch_isolation wReg).2.1 tcB "beta" toolB.2 "qb"
      "backend unreachable" rfl (by decide) rfl rfl rfl⟩

/-- C4: for every batch of named, normalizable requests, the responses
are in the same order as the originating requests — one response per
request, positionally — and the i-th response carries the i-th request's
identifier and tool name, including when some requests fail and some
succeed. -/
theorem result_ordering (tools : List ToolEntry) (tcs : List ToolCall)
    (hname : ∀ tc ∈ tcs, namedCall tc)
    (hargs : ∀ tc ∈ tcs, strNormalizable tc) :
    ∃ msgs, tool_executor_node tools tcs = .ok msgs ∧
      msgs.length = tcs.length ∧
      ∀ i (hi : i < tcs.length) (hj : i < msgs.length),
        (tcs.get ⟨i, hi⟩).name = some (msgs.get ⟨i, hj⟩).name ∧
        (tcs.get ⟨i, hi⟩).id.getD "unknown" =
          (msgs.get ⟨i, hj⟩).tool_call_id ∧
        execRequest tools (tcs.get ⟨i, hi⟩) =
          .ok (some (msgs.get ⟨i, hj⟩)) := by
  obtain ⟨msgs, h1, h2, h3⟩ := executor_pointwise tools tcs hname hargs
  refine ⟨msgs, h1, h2, fun i hi hj => ?_⟩
  have hmem : tcs.get ⟨i, hi⟩ ∈ tcs := List.get_mem _ _ _
  obtain ⟨m, hm, hname2, hid2⟩ :=
    execRequest_ok tools _ (hname _ hmem) (hargs _ hmem)
  have h4 := h3 i hi hj
  rw [hm] at h4
  have hmg : m = msgs.get ⟨i, hj⟩ := Option.some.inj (Except.ok.inj h4)
  subst hmg
  exact ⟨hname2, hid2, hm⟩

/-- Witness for `result_ordering`: the batch [A, B, C] where B's tool
raises produces exactly [A-result, B-error, C-result] in order. -/
theorem result_ordering_witness :
    (∀ tc ∈ [tcA, tcB, tcC], namedCall tc) ∧
    (∀ tc ∈ [tcA, tcB, tcC], strNormalizable tc) ∧
    (∃ msgs, tool_executor_node wReg [tcA, tcB, tcC] = .ok msgs ∧
      msgs.length = [tcA, tcB, tcC].length ∧
      ∀ i (hi : i < [tcA, tcB, tcC].length) (hj : i < msgs.length),
        ([tcA, tcB, tcC].get ⟨i, hi⟩).name =
          some (msgs.get ⟨i, hj⟩).name ∧
        ([tcA, tcB, tcC].get ⟨i, hi⟩).id.getD "unknown" =
          (msgs.get ⟨i, hj⟩).tool_call_id ∧
        execRequest wReg ([tcA, tcB, tcC].get ⟨i, hi⟩) =
          .ok (some (msgs.get ⟨i, hj⟩))) ∧
    tool_executor_node wReg [tcA, tcB, tcC] = .ok
      [⟨"call_1", "Tool \x27alpha\x27 returned: result for qa", "alpha"⟩,
        ⟨"call_2", "Error: Error executing tool beta: backend unreachable",
          "beta"⟩,
        ⟨"call_3", "Tool \x27gamma\x27 returned: qc ok", "gamma"⟩] :=
  have hn : ∀ tc ∈ [tcA, tcB, tcC], namedCall tc := by
    intro tc htc
    simp only [List.mem_cons, List.not_mem_nil, or_false] at htc
    rcases htc with rfl | rfl | rfl
    · exact ⟨"alpha", rfl, by decide⟩
    · exact ⟨"beta", rfl, by decide⟩
    · exact ⟨"gamma", rfl, by decide⟩
  have ha : ∀ tc ∈ [tcA, tcB, tcC], strNormalizable tc := by
    intro tc htc
    simp only [List.mem_cons, List.not_mem_nil, or_false] at htc
    rcases htc with rfl | rfl | rfl
    · exact ⟨"qa", rfl⟩
    · exact ⟨"qb", rfl⟩
    · exact ⟨"qc", rfl⟩
  ⟨hn, ha, result_ordering wReg [tcA, tcB, tcC] hn ha, by rfl⟩


def alwaysRequestsTools (decide : Decide) : Prop :=
  ∀ b h, (decide b h).tool_calls ≠ []

def requestsNormalizable (decide : Decide) : Prop :=
  ∀ b h tc, tc ∈ (decide b h).tool_calls → strNormalizable tc

theorem execRequest_no_crash (tools : List ToolEntry) (tc : ToolCall)
    (ha : strNormalizable tc) : ∃ o, execRequest tools tc = .ok o := by
  obtain ⟨q, hq⟩ := ha
  cases hn : tc.name with
  | none => exact ⟨none, by simp [execRequest, hn]⟩
  | some n =>
    cases hne : (n == "") with
    | true => exact ⟨none, by simp [execRequest, hn, hne]⟩
    | false =>
      cases hm : toolMapGet tools n with
      | none =>
        exact ⟨some ⟨tc.id.getD "unknown",
          "Tool \x27" ++ n ++ "\x27 not found. Available tools: " ++
            keysRepr tools, n⟩, by simp [execRequest, hn, hne, hm]⟩
      | some f =>
        cases hf : f q with
        | ok r =>
          exact ⟨some ⟨tc.id.getD "unknown",
            "Tool \x27" ++ n ++ "\x27 returned: " ++ truncateResult r, n⟩,
            by simp [execRequest, hn, hne, hm, hq, hf]⟩
        | error e =>
          exact ⟨some ⟨tc.id.getD "unknown",
            "Error: Error executing tool " ++ n ++ ": " ++ e, n⟩,
            by simp [execRequest, hn, hne, hm, hq, hf]⟩

theorem executor_no_crash (tools : List ToolEntry) (tcs : List ToolCall)
    (ha : ∀ tc ∈ tcs, strNormalizable tc) :
    ∃ msgs, tool_executor_node tools tcs = .ok msgs := by
  induction tcs with
  | nil => exact ⟨[], rfl⟩
  | cons tc rest ih =>
    obtain ⟨msgs, hms⟩ := ih (fun t ht => ha t (List.mem_cons_of_mem _ ht))
    obtain ⟨o, ho⟩ :=
      execRequest_no_crash tools tc (ha tc (List.mem_cons_self _ _))
    cases o with
    | none => exact ⟨msgs, by simp [tool_executor_node, ho, hms]⟩
    | some m => exact ⟨m :: msgs, by simp [tool_executor_node, ho, hms]⟩

theorem runFrom_succ (decide : Decide) (tools : List ToolEntry)
    (fuel : Nat) (s : AgentState) (trace : List Bool) :
    runFrom decide tools (fuel + 1) s trace =
      if routeAfterAgent (applyAgentUpdate s (agent_node decide s)) =
          GNode.tools then
        match tool_executor_node tools
            (applyAgentUpdate s (agent_node decide s)).tool_calls with
        | .error _ => none
        | .ok msgs =>
          runFrom decide tools fuel
            (applyToolsUpdate (applyAgentUpdate s (agent_node decide s))
              msgs)
            (trace ++ (match (agent_node decide s).invoked with
              | some b => [b]
              | none => []))
      else
        some (applyAgentUpdate s (agent_node decide s),
          trace ++ (match (agent_node decide s).invoked with
            | some b => [b]
            | none => [])) := rfl

theorem runFrom_reaches_apology (decide : Decide) (tools : List ToolEntry)
    (halways : alwaysRequestsTools decide)
    (hnorm : requestsNormalizable decide) :
    ∀ k, k ≤ MAX_ITERATIONS → ∀ s trace,
      s.iteration_count + k = MAX_ITERATIONS →
      ∃ fin tr, runFrom decide tools (k + 1) s trace = some (fin, tr) ∧
        tr.length = trace.length + k ∧
        fin.messages = s.messages ++ [Msg.ai apologyText []] ∧
        fin.tool_calls = [] := by
  intro k
  induction k with
  | zero =>
    intro _ s trace hic
    have hge : s.iteration_count ≥ MAX_ITERATIONS := by omega
    have hag : agent_node decide s =
        ⟨[Msg.ai apologyText []], [], none, none⟩ := by
      simp [agent_node, hge]
    have hroute0 : routeAfterAgent (applyAgentUpdate s (agent_node decide s)) =
        GNode.terminal := by
      simp [routeAfterAgent, should_continue, applyAgentUpdate, hag]
    refine ⟨applyAgentUpdate s (agent_node decide s), trace, ?_, by omega,
      by simp [applyAgentUpdate, hag], by simp [applyAgentUpdate, hag]⟩
    rw [runFrom_succ, if_neg (by rw [hroute0]; intro h; cases h)]
    rw [hag]
    simp
  | succ k ih =>
    intro hk s trace hic
    have hnge : ¬s.iteration_count ≥ MAX_ITERATIONS := by omega
    have hne : (decide s.tool_responses.isEmpty (histOf s)).tool_calls ≠ [] :=
      halways _ _
    have hniE := List.isEmpty_eq_false.mpr hne
    have hag : agent_node decide s =
        ⟨[], (decide s.tool_responses.isEmpty (histOf s)).tool_calls,
          some (s.iteration_count + 1), some s.tool_responses.isEmpty⟩ := by
      simp [agent_node, hnge, hniE]
    obtain ⟨msgs, hmsgs⟩ := executor_no_crash tools
      (decide s.tool_responses.isEmpty (histOf s)).tool_calls
      (fun tc htc => hnorm _ _ tc htc)
    have hroute : routeAfterAgent (applyAgentUpdate s (agent_node decide s)) =
        GNode.tools := by
      simp [routeAfterAgent, should_continue, applyAgentUpdate, hag, hniE]
    have htc2 : (applyAgentUpdate s (agent_node decide s)).tool_calls =
        (decide s.tool_responses.isEmpty (histOf s)).tool_calls := by
      simp [applyAgentUpdate, hag]
    have hinv : (agent_node decide s).invoked =
        some s.tool_responses.isEmpty := by rw [hag]
    obtain ⟨fin, tr, hrun, hlen, hmsg, htc⟩ := ih (by omega)
      (applyToolsUpdate (applyAgentUpdate s (agent_node decide s)) msgs)
      (trace ++ [s.tool_responses.isEmpty])
      (by simp [applyToolsUpdate, applyAgentUpdate, hag]; omega)
    refine ⟨fin, tr, ?_, ?_, ?_, htc⟩
    · rw [runFrom_succ, if_pos hroute, htc2, hmsgs, hinv]
      exact hrun
    · simp at hlen
      omega
    · rw [hmsg]
      simp [applyToolsUpdate, applyAgentUpdate, hag]

/-- C1: a decision step whose state has reached the ceiling of
`MAX_ITERATIONS = 5` returns the fixed apologetic final answer with an
empty tool-request list without invoking the model; and against a model
that always returns (normalizable) tool requests, the loop from a fresh
state terminates with the apology appended after exactly 5 model
invocations. -/
theorem iteration_ceiling_guard (decide : Decide) (tools : List ToolEntry) :
    (∀ s, s.iteration_count ≥ MAX_ITERATIONS →
      agent_node decide s = ⟨[Msg.ai apologyText []], [], none, none⟩) ∧
    (alwaysRequestsTools decide → requestsNormalizable decide →
      ∀ s, s.iteration_count = 0 →
      ∃ fin tr, runFrom decide tools (MAX_ITERATIONS + 1) s [] =
          some (fin, tr) ∧
        tr.length = MAX_ITERATIONS ∧
        fin.messages = s.messages ++ [Msg.ai apologyText []] ∧
        fin.tool_calls = []) := by
  constructor
  · intro s hge
    simp [agent_node, hge]
  · intro h1 h2 s h0
    obtain ⟨fin, tr, ha, hb, hc, hd⟩ := runFrom_reaches_apology decide tools
      h1 h2 MAX_ITERATIONS (le_refl _) s [] (by omega)
    exact ⟨fin, tr, ha, by simpa using hb, hc, hd⟩

/-- Witness for `iteration_ceiling_guard`: the stub model that always
requests tool `alpha` drives the fresh state to the apology with an
invocation trace of length exactly 5. -/
theorem iteration_ceiling_guard_witness :
    alwaysRequestsTools stubDecide ∧ requestsNormalizable stubDecide ∧
    initState.iteration_count = 0 ∧
    (∃ fin tr, runFrom stubDecide wReg (MAX_ITERATIONS + 1) initState [] =
        some (fin, tr) ∧
      tr.length = MAX_ITERATIONS ∧
      fin.messages = initState.messages ++ [Msg.ai apologyText []] ∧
      fin.tool_calls = []) :=
  have h1 : alwaysRequestsTools stubDecide := fun b h => by
    rw [show (stubDecide b h).tool_calls = [tcA] from rfl]
    simp
  have h2 : requestsNormalizable stubDecide := fun b h tc htc => by
    rw [show (stubDecide b h).tool_calls = [tcA] from rfl] at htc
    rcases List.mem_singleton.mp htc with rfl
    exact ⟨"qa", rfl⟩
  ⟨h1, h2, rfl,
    (iteration_ceiling_guard stubDecide wReg).2 h1 h2 initState rfl⟩

/-- Every model invocation in a run started with a non-empty
`tool_responses` channel happens with no tools bound: the channel only
grows, and the binding flag follows its emptiness. -/
theorem runFrom_unbound_aux (decide : Decide) (tools : List ToolEntry) :
    ∀ fuel s trace fin tr, s.tool_responses ≠ [] →
      (∀ b ∈ trace, b = false) →
      runFrom decide tools fuel s trace = some (fin, tr) →
      ∀ b ∈ tr, b = false := by
  intro fuel
  induction fuel with
  | zero =>
    intro s trace fin tr _ _ h
    cases h
  | succ fuel ih =>
    intro s trace fin tr hne htr hrun
    have hinv : (agent_node decide s).invoked = none ∨
        (agent_node decide s).invoked = some false := by
      by_cases hg : s.iteration_count ≥ MAX_ITERATIONS
      · left
        simp [agent_node, hg]
      · right
        have hE : s.tool_responses.isEmpty = false :=
          List.isEmpty_eq_false.mpr hne
        simp only [agent_node, if_neg hg, hE]
        split <;> rfl
    have htr2 : ∀ b ∈ (trace ++ (match (agent_node decide s).invoked with
        | some b => [b]
        | none => [])), b = false := by
      rcases hinv with h | h <;> rw [h] <;> intro b hb
      · simp at hb
        exact htr b hb
      · simp at hb
        rcases hb with hb | rfl
        · exact htr b hb
        · rfl
    rw [runFrom_succ] at hrun
    by_cases hr : routeAfterAgent (applyAgentUpdate s (agent_node decide s)) =
        GNode.tools
    · rw [if_pos hr] at hrun
      cases hex : tool_executor_node tools
          (applyAgentUpdate s (agent_node decide s)).tool_calls with
      | error e =>
        rw [hex] at hrun
        cases hrun
      | ok msgs =>
        rw [hex] at hrun
        have hpres : (applyToolsUpdate
            (applyAgentUpdate s (agent_node decide s)) msgs).tool_responses ≠
            [] := by
          simp only [applyToolsUpdate, applyAgentUpdate]
          intro h
          exact hne (List.append_eq_nil.mp h).1
        exact ih _ _ _ _ hpres htr2 hrun
    · rw [if_neg hr] at hrun
      injection hrun with h
      injection h with h1 h2
      rw [← h2]
      exact htr2

/-- C9: below the ceiling the decision step invokes the model with tools
bound exactly when the accumulated `tool_responses` list is empty; the
agent update never changes `tool_responses` and the tools update extends
it by concatenation, so from any state with a non-empty `tool_responses`
every model invocation of the rest of the run is made with no tools
bound. -/
theorem answering_mode_permanent (decide : Decide) (tools : List ToolEntry) :
    (∀ s, s.iteration_count < MAX_ITERATIONS →
      (agent_node decide s).invoked = some s.tool_responses.isEmpty) ∧
    (∀ s r, (applyAgentUpdate s r).tool_responses = s.tool_responses) ∧
    (∀ s msgs, (applyToolsUpdate s msgs).tool_responses =
      s.tool_responses ++ msgs) ∧
    (∀ fuel s fin tr, s.tool_responses ≠ [] →
      runFrom decide tools fuel s [] = some (fin, tr) →
      ∀ b ∈ tr, b = false) := by
  refine ⟨?_, fun s r => rfl, fun s msgs => rfl, ?_⟩
  · intro s hlt
    have hg : ¬s.iteration_count ≥ MAX_ITERATIONS := by omega
    simp only [agent_node, if_neg hg]
    split <;> rfl
  · intro fuel s fin tr hne hrun
    exact runFrom_unbound_aux decide tools fuel s [] fin tr hne
      (by simp) hrun

/-- A state that already holds one tool response, counter at 1. -/
def respondedState : AgentState :=
  ⟨"hi", [], [Msg.human "hi"], [],
    [⟨"call_0", "Tool \x27echo\x27 returned: x", "echo"⟩], 1⟩

/-- Witness for `answering_mode_permanent`: from a state holding one tool
response, the next decision step reports no tools bound and the whole
remaining run invokes the model only unbound. -/
theorem answering_mode_permanent_witness :
    respondedState.iteration_count < MAX_ITERATIONS ∧
    (agent_node stubDecide respondedState).invoked =
      some respondedState.tool_responses.isEmpty ∧
    respondedState.tool_responses ≠ [] ∧
    (∃ fin tr, runFrom stubDecide wReg 5 respondedState [] =
        some (fin, tr) ∧ ∀ b ∈ tr, b = false) :=
  have hlt : respondedState.iteration_count < MAX_ITERATIONS := by decide
  have hne : respondedState.tool_responses ≠ [] := by
    rw [show respondedState.tool_responses =
      [⟨"call_0", "Tool \x27echo\x27 returned: x", "echo"⟩] from rfl]
    simp
  have h1 : alwaysRequestsTools stubDecide := fun b h => by
    rw [show (stubDecide b h).tool_calls = [tcA] from rfl]
    simp
  have h2 : requestsNormalizable stubDecide := fun b h tc htc => by
    rw [show (stubDecide b h).tool_calls = [tcA] from rfl] at htc
    rcases List.mem_singleton.mp htc with rfl
    exact ⟨"qa", rfl⟩
  have hrun := runFrom_reaches_apology stubDecide wReg h1 h2 4 (by decide)
    respondedState [] (by decide)
  have hperm := answering_mode_permanent stubDecide wReg
  ⟨hlt, hperm.1 respondedState hlt, hne, by
    obtain ⟨fin, tr, ha, _, _, _⟩ := hrun
    exact ⟨fin, tr, ha, hperm.2.2.2 5 respondedState fin tr hne ha⟩⟩

end Graph
